import Mathlib

/-
  Verification development for the PoEOverlay overlay compositing and
  interaction-state engine.

  Shallow embedding of the C++ sources:
    - src/rendering/animation_manager.cpp  (Animation, FloatAnimation, AnimationManager)
    - src/rendering/z_order_manager.cpp    (ZOrderManager)
    - src/window/overlay_window.cpp        (OverlayWindow::SetVisible / Create)
    - src/window/window_manager.cpp        (WindowManager::HandleWindowEvent)
    - src/process/focus_tracker.cpp        (FocusTracker)
    - src/process/window_state_tracker.cpp (WindowStateTracker)
    - src/process/process_detector.cpp     (ProcessDetector notification boundary)

  Modelling conventions:
    - C++ float values are modelled as exact rationals; the code performs
      plain arithmetic (no transcendental functions), so the algebraic
      structure of every claim survives the translation.
    - std::chrono::steady_clock time points are modelled as natural numbers
      of milliseconds (the code only ever takes millisecond differences).
    - Callbacks are modelled by recording their observable effects (emitted
      values, completion events, report-log entries) in the state.
    - Windows handles are modelled as natural numbers, with 0 playing the
      role of the null HWND.
-/

namespace PoEOverlay

/-! ## Animation model

Embedded from src/src/rendering/animation_manager.cpp (Animation and
FloatAnimation).  A FloatAnim value carries the fields of Animation plus
those of FloatAnimation, together with an event log: emittedValues records
each invocation of m_valueCallback (in order), completions counts the
invocations of m_completionCallback. -/

structure FloatAnim where
  durationMs : Nat
  startValue : ℚ
  endValue : ℚ
  running : Bool
  progress : ℚ
  startTime : Nat
  currentValue : ℚ
  emittedValues : List ℚ
  completions : Nat
deriving DecidableEq

/-- FloatAnimation::UpdateValue: computes
`m_currentValue = m_startValue + (m_endValue - m_startValue) * m_progress`
and invokes m_valueCallback with it (recorded in emittedValues). -/
def updateValue (a : FloatAnim) : FloatAnim :=
  let v := a.startValue + (a.endValue - a.startValue) * a.progress
  { a with currentValue := v, emittedValues := a.emittedValues ++ [v] }

/-- Animation::Start: records the start time, marks the animation running,
resets progress to 0 and calls UpdateValue. -/
def animStart (a : FloatAnim) (now : Nat) : FloatAnim :=
  updateValue { a with startTime := now, running := true, progress := 0 }

/-- The clamp in Animation::Update:
`(p < 0.0f) ? 0.0f : (p > 1.0f) ? 1.0f : p`. -/
def clamp01 (q : ℚ) : ℚ :=
  if q < 0 then 0 else if q > 1 then 1 else q

/-- The progress computation of Animation::Update (lines 42-53 of
animation_manager.cpp): elapsed milliseconds divided by the duration,
with the zero-duration branch forcing progress 1, then clamped to [0,1].
The steady clock is monotone, so `now - m_startTime` is modelled by
truncated natural subtraction. -/
def tickProgress (a : FloatAnim) (now : Nat) : ℚ :=
  clamp01 (if a.durationMs ≤ 0 then 1
           else ((now - a.startTime : Nat) : ℚ) / (a.durationMs : ℚ))

/-- Animation::Update at clock time `now` (milliseconds).  Returns the
updated animation and the boolean return value of the C++ method (true when
the animation keeps running).  When the clamped progress reaches 1 the
animation is marked not-running and the completion callback fires (counted
in completions), matching lines 36-71 of animation_manager.cpp. -/
def animUpdate (a : FloatAnim) (now : Nat) : FloatAnim × Bool :=
  if a.running = false then (a, false)
  else
    let p := tickProgress a now
    let a1 := updateValue { a with progress := p }
    if 1 ≤ p then
      ({ a1 with running := false, completions := a1.completions + 1 }, false)
    else
      (a1, true)

/-- The FloatAnimation constructor: progress 0, not running, current value
equal to the start value, no events yet. -/
def freshFloatAnim (durationMs : Nat) (startValue endValue : ℚ) : FloatAnim :=
  { durationMs := durationMs
    startValue := startValue
    endValue := endValue
    running := false
    progress := 0
    startTime := 0
    currentValue := startValue
    emittedValues := []
    completions := 0 }

theorem clamp01_nonneg (q : ℚ) : 0 ≤ clamp01 q := by
  unfold clamp01
  split_ifs with h1 h2 <;> linarith

theorem clamp01_le_one (q : ℚ) : clamp01 q ≤ 1 := by
  unfold clamp01
  split_ifs with h1 h2 <;> linarith

theorem clamp01_mono {p q : ℚ} (h : p ≤ q) : clamp01 p ≤ clamp01 q := by
  unfold clamp01
  split_ifs with h1 h2 h3 h4 h5 h6 <;> linarith

theorem tickProgress_mono (a : FloatAnim) {now later : Nat} (hle : now ≤ later) :
    tickProgress a now ≤ tickProgress a later := by
  unfold tickProgress
  apply clamp01_mono
  by_cases hd : a.durationMs ≤ 0
  · rw [if_pos hd, if_pos hd]
  · rw [if_neg hd, if_neg hd]
    have hdq : (0 : ℚ) < (a.durationMs : ℚ) := by
      have : 0 < a.durationMs := by omega
      exact_mod_cast this
    rw [div_le_div_iff_of_pos_right hdq]
    exact_mod_cast Nat.sub_le_sub_right hle _

theorem tickProgress_of_zero_duration (a : FloatAnim) (now : Nat)
    (hd : a.durationMs = 0) : tickProgress a now = 1 := by
  unfold tickProgress
  rw [if_pos (by omega)]
  simp [clamp01]

theorem animUpdate_not_running (a : FloatAnim) (now : Nat) (h : a.running = false) :
    animUpdate a now = (a, false) := by
  simp [animUpdate, h]

theorem animUpdate_complete (a : FloatAnim) (now : Nat) (h : a.running = true)
    (h1 : 1 ≤ tickProgress a now) :
    animUpdate a now =
      ({ a with progress := tickProgress a now
                currentValue :=
                  a.startValue + (a.endValue - a.startValue) * tickProgress a now
                emittedValues := a.emittedValues ++
                  [a.startValue + (a.endValue - a.startValue) * tickProgress a now]
                running := false
                completions := a.completions + 1 }, false) := by
  simp only [animUpdate, updateValue]
  rw [if_neg (by simp [h]), if_pos h1]

theorem animUpdate_continue (a : FloatAnim) (now : Nat) (h : a.running = true)
    (h1 : ¬ 1 ≤ tickProgress a now) :
    animUpdate a now =
      ({ a with progress := tickProgress a now
                currentValue :=
                  a.startValue + (a.endValue - a.startValue) * tickProgress a now
                emittedValues := a.emittedValues ++
                  [a.startValue + (a.endValue - a.startValue) * tickProgress a now] },
       true) := by
  simp only [animUpdate, updateValue]
  rw [if_neg (by simp [h]), if_neg h1]

theorem animUpdate_progress (a : FloatAnim) (now : Nat) (h : a.running = true) :
    (animUpdate a now).1.progress = tickProgress a now := by
  by_cases h1 : 1 ≤ tickProgress a now
  · rw [animUpdate_complete a now h h1]
  · rw [animUpdate_continue a now h h1]

/-- C2: every tick of a running animation computes
progress = clamp((now - startTime)/duration, 0, 1), invokes onValue with
value = start + (end - start) * progress, and, exactly on the tick at which
the clamped progress reaches 1, fires onComplete once and marks the
instance not-running (after which further ticks are no-ops, so onComplete
fires exactly once per run); progress stays in [0,1] and is monotonically
non-decreasing across ticks of one run; a zero-duration instance completes
on the first tick after Start. -/
theorem c2_animation_tick (a : FloatAnim) (now : Nat) (h : a.running = true) :
    (animUpdate a now).1.progress = tickProgress a now
    ∧ 0 ≤ (animUpdate a now).1.progress
    ∧ (animUpdate a now).1.progress ≤ 1
    ∧ (animUpdate a now).1.currentValue
        = a.startValue + (a.endValue - a.startValue) * (animUpdate a now).1.progress
    ∧ (animUpdate a now).1.emittedValues
        = a.emittedValues ++ [(animUpdate a now).1.currentValue]
    ∧ (animUpdate a now).1.completions
        = a.completions + (if 1 ≤ (animUpdate a now).1.progress then 1 else 0)
    ∧ (1 ≤ (animUpdate a now).1.progress → (animUpdate a now).1.running = false)
    ∧ ((animUpdate a now).1.progress < 1 → (animUpdate a now).1.running = true)
    ∧ (a.durationMs = 0 →
        (animUpdate a now).1.running = false
        ∧ (animUpdate a now).1.completions = a.completions + 1)
    ∧ (∀ b : FloatAnim, b.running = false → animUpdate b now = (b, false))
    ∧ (∀ later, now ≤ later → (animUpdate a now).1.running = true →
        (animUpdate a now).1.progress ≤ (animUpdate (animUpdate a now).1 later).1.progress) := by
  by_cases h1 : 1 ≤ tickProgress a now
  · rw [animUpdate_complete a now h h1]
    refine ⟨rfl, clamp01_nonneg _, clamp01_le_one _, rfl, rfl, by simp [h1], ?_, ?_, ?_, ?_, ?_⟩
    · intro _; rfl
    · intro hlt; exact absurd h1 (not_le_of_lt hlt)
    · intro _; exact ⟨rfl, rfl⟩
    · intro b hb2; exact animUpdate_not_running b now hb2
    · intro later _ hrun; exact absurd hrun (by simp)
  · rw [animUpdate_continue a now h h1]
    refine ⟨rfl, clamp01_nonneg _, clamp01_le_one _, rfl, rfl, by simp [h1], ?_, ?_, ?_, ?_, ?_⟩
    · intro hge; exact absurd hge h1
    · intro _; exact h
    · intro hdz; exact absurd (le_of_eq (tickProgress_of_zero_duration a now hdz).symm) h1
    · intro b hb2; exact animUpdate_not_running b now hb2
    · intro later hle hrun
      rw [animUpdate_progress _ later hrun]
      exact tickProgress_mono a hle

/-- Witness for c2_animation_tick: the 300 ms opacity scenario of the spec,
ticked at t = 300 after a start at t = 0. -/
theorem c2_animation_tick_witness :
    (animStart (freshFloatAnim 300 0 1) 0).running = true
    ∧ 0 ≤ (animUpdate (animStart (freshFloatAnim 300 0 1) 0) 300).1.progress :=
  ⟨by decide, (c2_animation_tick (animStart (freshFloatAnim 300 0 1) 0) 300 (by decide)).2.1⟩

-- Model validation on the spec scenario: CreateOrReplace("opacity", 300, 0, 1),
-- Start at t=0 (one onValue at value 0), tick at t=0 gives progress 0 and value 0,
-- tick at t=300 gives progress 1, value 1, completion fired exactly once.
example : (animUpdate (animStart (freshFloatAnim 300 0 1) 0) 0).1.progress = 0 := by
  norm_num [animUpdate, animStart, updateValue, tickProgress, clamp01, freshFloatAnim]
example : (animUpdate (animStart (freshFloatAnim 300 0 1) 0) 0).1.currentValue = 0 := by
  norm_num [animUpdate, animStart, updateValue, tickProgress, clamp01, freshFloatAnim]
example : (animUpdate (animStart (freshFloatAnim 300 0 1) 0) 300).1.progress = 1 := by
  norm_num [animUpdate, animStart, updateValue, tickProgress, clamp01, freshFloatAnim]
example : (animUpdate (animStart (freshFloatAnim 300 0 1) 0) 300).1.completions = 1 := by
  norm_num [animUpdate, animStart, updateValue, tickProgress, clamp01, freshFloatAnim]
example :
    (animUpdate (animUpdate (animStart (freshFloatAnim 300 0 1) 0) 300).1 600).1.completions
      = 1 := by
  norm_num [animUpdate, animStart, updateValue, tickProgress, clamp01, freshFloatAnim]

/-! ## AnimationManager model

Embedded from src/src/rendering/animation_manager.cpp (AnimationManager).
m_animations is an unordered map from name to shared_ptr; it is modelled as
an association list whose entries carry an instance identity (the id field
stands for the shared_ptr object identity, handed out by the nextId
counter, which plays the role of the allocator).  m_activeAnimations holds
shared_ptr copies and is modelled by the list of instance ids.
firedCompletions is the event log of completion callbacks fired by
AnimationManager::Update, in order. -/

structure AnimEntry where
  id : Nat
  anim : FloatAnim
deriving DecidableEq

/-- Animation::Stop: clears the running flag, nothing else. -/
def animStop (a : FloatAnim) : FloatAnim :=
  { a with running := false }

structure AnimMgr where
  initialized : Bool
  animations : List (String × AnimEntry)
  active : List Nat
  nextId : Nat
  firedCompletions : List Nat
deriving DecidableEq

/-- m_animations.find(name): the map holds at most one entry per key. -/
def findEntry : List (String × AnimEntry) → String → Option AnimEntry
  | [], _ => none
  | p :: rest, name => if p.1 = name then some p.2 else findEntry rest name

/-- m_animations.erase(it) for the iterator returned by find(name). -/
def eraseEntry : List (String × AnimEntry) → String → List (String × AnimEntry)
  | [], _ => []
  | p :: rest, name => if p.1 = name then rest else p :: eraseEntry rest name

/-- In-place mutation of the instance that find(name) returned. -/
def setEntry : List (String × AnimEntry) → String → AnimEntry → List (String × AnimEntry)
  | [], _, _ => []
  | p :: rest, name, e => if p.1 = name then (p.1, e) :: rest else p :: setEntry rest name e

/-- Dereferencing an active-list shared_ptr: the map entry with that
instance identity. -/
def findById : List (String × AnimEntry) → Nat → Option (String × AnimEntry)
  | [], _ => none
  | p :: rest, i => if p.2.id = i then some p else findById rest i

/-- Writing back the mutated instance with identity i. -/
def setById : List (String × AnimEntry) → Nat → FloatAnim → List (String × AnimEntry)
  | [], _, _ => []
  | p :: rest, i, a => if p.2.id = i then (p.1, ⟨p.2.id, a⟩) :: rest else p :: setById rest i a

/-- AnimationManager::CreateFloatAnimation (lines 164-207): if the name is
taken, the existing instance is stopped, removed from the active list and
erased from the map (its completion callback is not invoked); then a fresh
FloatAnimation is constructed and stored under the name.  The fresh
instance is not started and not added to the active list. -/
def createFloatAnimation (m : AnimMgr) (name : String) (durationMs : Nat)
    (startValue endValue : ℚ) : AnimMgr :=
  if m.initialized = false then m
  else
    let fresh : AnimEntry := ⟨m.nextId, freshFloatAnim durationMs startValue endValue⟩
    match findEntry m.animations name with
    | some e =>
        { m with
            animations := eraseEntry m.animations name ++ [(name, fresh)]
            active := m.active.erase e.id
            nextId := m.nextId + 1 }
    | none =>
        { m with
            animations := m.animations ++ [(name, fresh)]
            nextId := m.nextId + 1 }

/-- AnimationManager::StartAnimation (lines 209-234). -/
def startAnimation (m : AnimMgr) (name : String) (now : Nat) : AnimMgr × Bool :=
  if m.initialized = false then (m, false)
  else
    match findEntry m.animations name with
    | none => (m, false)
    | some e =>
        ({ m with
             animations := setEntry m.animations name ⟨e.id, animStart e.anim now⟩
             active := if e.id ∈ m.active then m.active else m.active ++ [e.id] },
         true)

/-- AnimationManager::StopAnimation (lines 236-259). -/
def stopAnimation (m : AnimMgr) (name : String) : AnimMgr × Bool :=
  if m.initialized = false then (m, false)
  else
    match findEntry m.animations name with
    | none => (m, false)
    | some e =>
        ({ m with
             animations := setEntry m.animations name ⟨e.id, animStop e.anim⟩
             active := m.active.erase e.id },
         true)

/-- AnimationManager::StopAllAnimations (lines 261-274). -/
def stopAllAnimations (m : AnimMgr) : AnimMgr :=
  if m.initialized = false then m
  else
    { m with
        animations := m.animations.map (fun p => (p.1, ⟨p.2.id, animStop p.2.anim⟩))
        active := [] }

/-- The loop body of AnimationManager::Update (lines 143-162): walk the
active list in order, call Update() on each instance, keep it when Update
returns true and erase it from the active list otherwise, recording a
completion event when the completion callback fired during that Update.
A dangling active entry (an id with no map entry) cannot arise - every id
pushed onto the active list is the id of a map entry - and is skipped to
keep the recursion total.  Returns the updated map, the surviving active
list and the completion events in firing order. -/
def updateActive (now : Nat) :
    List (String × AnimEntry) → List Nat →
      List (String × AnimEntry) × List Nat × List Nat
  | anims, [] => (anims, [], [])
  | anims, i :: rest =>
    match findById anims i with
    | none => updateActive now anims rest
    | some p =>
        let r := animUpdate p.2.anim now
        let res := updateActive now (setById anims i r.1) rest
        if r.2 then (res.1, i :: res.2.1, res.2.2)
        else
          (res.1, res.2.1,
           if r.1.completions = p.2.anim.completions + 1 then i :: res.2.2 else res.2.2)

/-- AnimationManager::Update. -/
def mgrUpdate (m : AnimMgr) (now : Nat) : AnimMgr :=
  if m.initialized = false then m
  else
    let r := updateActive now m.animations m.active
    { m with
        animations := r.1
        active := r.2.1
        firedCompletions := m.firedCompletions ++ r.2.2 }

/-- The public operations of AnimationManager that can run after a
CreateFloatAnimation call. -/
inductive MgrOp where
  | createF (name : String) (durationMs : Nat) (startValue endValue : ℚ)
  | startA (name : String) (now : Nat)
  | stopA (name : String)
  | tick (now : Nat)
  | stopAll
deriving DecidableEq

def applyMgrOp (m : AnimMgr) : MgrOp → AnimMgr
  | .createF n d s e => createFloatAnimation m n d s e
  | .startA n now => (startAnimation m n now).1
  | .stopA n => (stopAnimation m n).1
  | .tick now => mgrUpdate m now
  | .stopAll => stopAllAnimations m

def runMgr (m : AnimMgr) (ops : List MgrOp) : AnimMgr :=
  ops.foldl applyMgrOp m

/-- The instance identities stored in the map. -/
def entryIds (l : List (String × AnimEntry)) : List Nat :=
  l.map (fun p => p.2.id)

theorem findEntry_mem {l : List (String × AnimEntry)} {name : String} {e : AnimEntry}
    (h : findEntry l name = some e) : (name, e) ∈ l := by
  induction l with
  | nil => simp [findEntry] at h
  | cons p rest ih =>
    rw [findEntry] at h
    split at h
    · next hp =>
      injection h with h2
      subst hp
      subst h2
      exact List.mem_cons_self _ _
    · next hp => exact List.mem_cons_of_mem _ (ih h)

theorem findEntry_id_mem {l : List (String × AnimEntry)} {name : String} {e : AnimEntry}
    (h : findEntry l name = some e) : e.id ∈ entryIds l := by
  have := findEntry_mem h
  exact List.mem_map.mpr ⟨(name, e), this, rfl⟩

theorem findEntry_eq_none {l : List (String × AnimEntry)} {name : String}
    (h : name ∉ l.map Prod.fst) : findEntry l name = none := by
  induction l with
  | nil => rfl
  | cons p rest ih =>
    rw [findEntry]
    rw [List.map_cons, List.mem_cons] at h
    push_neg at h
    rw [if_neg (fun hp => h.1 hp.symm)]
    exact ih h.2

theorem findEntry_append_of_none {l1 l2 : List (String × AnimEntry)} {name : String}
    (h : findEntry l1 name = none) :
    findEntry (l1 ++ l2) name = findEntry l2 name := by
  induction l1 with
  | nil => rfl
  | cons p rest ih =>
    rw [findEntry] at h
    rw [List.cons_append, findEntry]
    split at h
    · exact absurd h (by simp)
    · next hp => rw [if_neg hp]; exact ih h

theorem eraseEntry_sublist (l : List (String × AnimEntry)) (name : String) :
    (eraseEntry l name).Sublist l := by
  induction l with
  | nil => exact List.Sublist.refl _
  | cons p rest ih =>
    rw [eraseEntry]
    split
    · exact List.sublist_cons_self _ _
    · exact List.Sublist.cons₂ _ ih

theorem eraseEntry_keys_nodup_find {l : List (String × AnimEntry)} {name : String}
    (h : (l.map Prod.fst).Nodup) : findEntry (eraseEntry l name) name = none := by
  induction l with
  | nil => rfl
  | cons p rest ih =>
    rw [List.map_cons, List.nodup_cons] at h
    rw [eraseEntry]
    split
    · next hp => exact findEntry_eq_none (by rw [← hp]; exact h.1)
    · next hp =>
      rw [findEntry, if_neg hp]
      exact ih h.2

theorem eraseEntry_id_not_mem {l : List (String × AnimEntry)} {name : String} {e : AnimEntry}
    (hf : findEntry l name = some e) (hnd : (entryIds l).Nodup) :
    e.id ∉ entryIds (eraseEntry l name) := by
  induction l with
  | nil => simp [findEntry] at hf
  | cons p rest ih =>
    rw [entryIds, List.map_cons, List.nodup_cons] at hnd
    rw [findEntry] at hf
    rw [eraseEntry]
    split
    · next hp =>
      rw [if_pos hp] at hf
      injection hf with h2
      rw [← h2]
      exact hnd.1
    · next hp =>
      rw [if_neg hp] at hf
      rw [entryIds, List.map_cons, List.mem_cons]
      push_neg
      refine ⟨?_, ih hf hnd.2⟩
      intro heq
      exact absurd (heq ▸ findEntry_id_mem hf) hnd.1

theorem setEntry_ids {l : List (String × AnimEntry)} {name : String} {e e2 : AnimEntry}
    (hf : findEntry l name = some e) (hid : e2.id = e.id) :
    entryIds (setEntry l name e2) = entryIds l := by
  induction l with
  | nil => rfl
  | cons p rest ih =>
    rw [findEntry] at hf
    rw [setEntry]
    split
    · next hp =>
      rw [if_pos hp] at hf
      injection hf with h2
      simp [entryIds, hid, h2]
    · next hp =>
      rw [if_neg hp] at hf
      simp [entryIds] at ih ⊢
      exact ih hf

theorem setById_ids (l : List (String × AnimEntry)) (i : Nat) (a : FloatAnim) :
    entryIds (setById l i a) = entryIds l := by
  induction l with
  | nil => rfl
  | cons p rest ih =>
    rw [setById]
    split
    · next hp => simp [entryIds, hp]
    · simp [entryIds] at ih ⊢
      exact ih

theorem updateActive_ids (now : Nat) (anims : List (String × AnimEntry)) (l : List Nat) :
    entryIds (updateActive now anims l).1 = entryIds anims := by
  induction l generalizing anims with
  | nil => rfl
  | cons i rest ih =>
    cases hf : findById anims i with
    | none =>
      simp only [updateActive, hf]
      exact ih anims
    | some p =>
      simp only [updateActive, hf]
      split <;> simpa [setById_ids] using ih (setById anims i (animUpdate p.2.anim now).1)

theorem updateActive_active_sub (now : Nat) (anims : List (String × AnimEntry))
    (l : List Nat) : ∀ j ∈ (updateActive now anims l).2.1, j ∈ l := by
  induction l generalizing anims with
  | nil => intro j hj; simp [updateActive] at hj
  | cons i rest ih =>
    intro j hj
    cases hf : findById anims i with
    | none =>
      simp only [updateActive, hf] at hj
      exact List.mem_cons_of_mem _ (ih anims j hj)
    | some p =>
      simp only [updateActive, hf] at hj
      split at hj
      · rcases List.mem_cons.mp hj with h1 | h1
        · exact h1 ▸ List.mem_cons_self _ _
        · exact List.mem_cons_of_mem _ (ih _ j h1)
      · exact List.mem_cons_of_mem _ (ih _ j hj)

theorem updateActive_fired_sub (now : Nat) (anims : List (String × AnimEntry))
    (l : List Nat) : ∀ j ∈ (updateActive now anims l).2.2, j ∈ l := by
  induction l generalizing anims with
  | nil => intro j hj; simp [updateActive] at hj
  | cons i rest ih =>
    intro j hj
    cases hf : findById anims i with
    | none =>
      simp only [updateActive, hf] at hj
      exact List.mem_cons_of_mem _ (ih anims j hj)
    | some p =>
      simp only [updateActive, hf] at hj
      split at hj
      · exact List.mem_cons_of_mem _ (ih _ j hj)
      · split at hj
        · rcases List.mem_cons.mp hj with h1 | h1
          · exact h1 ▸ List.mem_cons_self _ _
          · exact List.mem_cons_of_mem _ (ih _ j h1)
        · exact List.mem_cons_of_mem _ (ih _ j hj)

/-- An instance identity that is absent from the map, absent from the
active list and below the allocation counter can never reappear: no later
operation restores it, so its callbacks can never fire again. -/
def untouched (k : Nat) (m : AnimMgr) : Prop :=
  k ∉ entryIds m.animations ∧ k ∉ m.active ∧ k < m.nextId

theorem untouched_applyMgrOp {k : Nat} {m : AnimMgr} (op : MgrOp) (h : untouched k m) :
    untouched k (applyMgrOp m op)
    ∧ (applyMgrOp m op).firedCompletions.count k = m.firedCompletions.count k := by
  obtain ⟨hids, hact, hlt⟩ := h
  cases op with
  | createF n d s e =>
    by_cases hinit : m.initialized = false
    · simp only [applyMgrOp, createFloatAnimation, if_pos hinit]
      exact ⟨⟨hids, hact, hlt⟩, trivial⟩
    · cases hf : findEntry m.animations n with
      | some e0 =>
        simp only [applyMgrOp, createFloatAnimation, if_neg hinit, hf]
        refine ⟨⟨?_, ?_, ?_⟩, trivial⟩
        · show k ∉ entryIds (eraseEntry m.animations n
            ++ [(n, ⟨m.nextId, freshFloatAnim d s e⟩)])
          rw [entryIds, List.map_append]
          intro hmem
          rcases List.mem_append.mp hmem with h1 | h1
          · exact hids (((eraseEntry_sublist m.animations n).map _).subset h1)
          · simp at h1; omega
        · show k ∉ m.active.erase e0.id
          exact fun hmem => hact (List.mem_of_mem_erase hmem)
        · show k < m.nextId + 1
          omega
      | none =>
        simp only [applyMgrOp, createFloatAnimation, if_neg hinit, hf]
        refine ⟨⟨?_, hact, ?_⟩, trivial⟩
        · show k ∉ entryIds (m.animations ++ [(n, ⟨m.nextId, freshFloatAnim d s e⟩)])
          rw [entryIds, List.map_append]
          intro hmem
          rcases List.mem_append.mp hmem with h1 | h1
          · exact hids h1
          · simp at h1; omega
        · show k < m.nextId + 1
          omega
  | startA n now =>
    by_cases hinit : m.initialized = false
    · simp only [applyMgrOp, startAnimation, if_pos hinit]
      exact ⟨⟨hids, hact, hlt⟩, trivial⟩
    · cases hf : findEntry m.animations n with
      | none =>
        simp only [applyMgrOp, startAnimation, if_neg hinit, hf]
        exact ⟨⟨hids, hact, hlt⟩, trivial⟩
      | some e0 =>
        simp only [applyMgrOp, startAnimation, if_neg hinit, hf]
        have hne : e0.id ≠ k := fun heq => hids (heq ▸ findEntry_id_mem hf)
        refine ⟨⟨?_, ?_, hlt⟩, trivial⟩
        · show k ∉ entryIds (setEntry m.animations n ⟨e0.id, animStart e0.anim now⟩)
          rw [@setEntry_ids m.animations n e0 ⟨e0.id, animStart e0.anim now⟩ hf rfl]
          exact hids
        · show k ∉ (if e0.id ∈ m.active then m.active else m.active ++ [e0.id])
          split
          · exact hact
          · intro hmem
            rcases List.mem_append.mp hmem with h1 | h1
            · exact hact h1
            · simp at h1; exact hne h1.symm
  | stopA n =>
    by_cases hinit : m.initialized = false
    · simp only [applyMgrOp, stopAnimation, if_pos hinit]
      exact ⟨⟨hids, hact, hlt⟩, trivial⟩
    · cases hf : findEntry m.animations n with
      | none =>
        simp only [applyMgrOp, stopAnimation, if_neg hinit, hf]
        exact ⟨⟨hids, hact, hlt⟩, trivial⟩
      | some e0 =>
        simp only [applyMgrOp, stopAnimation, if_neg hinit, hf]
        refine ⟨⟨?_, ?_, hlt⟩, trivial⟩
        · show k ∉ entryIds (setEntry m.animations n ⟨e0.id, animStop e0.anim⟩)
          rw [@setEntry_ids m.animations n e0 ⟨e0.id, animStop e0.anim⟩ hf rfl]
          exact hids
        · show k ∉ m.active.erase e0.id
          exact fun hmem => hact (List.mem_of_mem_erase hmem)
  | tick now =>
    by_cases hinit : m.initialized = false
    · simp only [applyMgrOp, mgrUpdate, if_pos hinit]
      exact ⟨⟨hids, hact, hlt⟩, trivial⟩
    · simp only [applyMgrOp, mgrUpdate, if_neg hinit]
      refine ⟨⟨?_, ?_, hlt⟩, ?_⟩
      · show k ∉ entryIds (updateActive now m.animations m.active).1
        rw [updateActive_ids]; exact hids
      · show k ∉ (updateActive now m.animations m.active).2.1
        exact fun hmem => hact (updateActive_active_sub now m.animations m.active k hmem)
      · show (m.firedCompletions ++ (updateActive now m.animations m.active).2.2).count k
            = m.firedCompletions.count k
        rw [List.count_append]
        have hz : (updateActive now m.animations m.active).2.2.count k = 0 :=
          List.count_eq_zero.mpr
            (fun hmem => hact (updateActive_fired_sub now m.animations m.active k hmem))
        omega
  | stopAll =>
    by_cases hinit : m.initialized = false
    · simp only [applyMgrOp, stopAllAnimations, if_pos hinit]
      exact ⟨⟨hids, hact, hlt⟩, trivial⟩
    · simp only [applyMgrOp, stopAllAnimations, if_neg hinit]
      refine ⟨⟨?_, by simp, hlt⟩, trivial⟩
      show k ∉ entryIds
        (m.animations.map (fun p => (p.1, (⟨p.2.id, animStop p.2.anim⟩ : AnimEntry))))
      have hsame : entryIds
          (m.animations.map (fun p => (p.1, (⟨p.2.id, animStop p.2.anim⟩ : AnimEntry))))
            = entryIds m.animations := by
        simp [entryIds, List.map_map, Function.comp]
      rw [hsame]; exact hids

theorem untouched_runMgr {k : Nat} {m : AnimMgr} (ops : List MgrOp) (h : untouched k m) :
    untouched k (runMgr m ops)
    ∧ (runMgr m ops).firedCompletions.count k = m.firedCompletions.count k := by
  induction ops generalizing m with
  | nil => exact ⟨h, rfl⟩
  | cons op rest ih =>
    have h1 := untouched_applyMgrOp op h
    have h2 := ih h1.1
    have hstep : runMgr m (op :: rest) = runMgr (applyMgrOp m op) rest := rfl
    rw [hstep]
    exact ⟨h2.1, by rw [h2.2, h1.2]⟩

/-- C6: AnimationManager::CreateFloatAnimation under a name that already
exists stops the existing instance without firing its completion callback,
removes it from the map and from the active list, and installs the fresh
instance under the same name; the superseded instance is never queued again
and its completion callback can never fire during any later sequence of
manager operations.  The Nodup and id-bound hypotheses are invariants of
every reachable manager state (names are unordered-map keys, ids are handed
out by the allocator counter). -/
theorem c6_create_or_replace (m : AnimMgr) (name : String) (durationMs : Nat)
    (startValue endValue : ℚ) (e : AnimEntry)
    (hinit : m.initialized = true)
    (hfind : findEntry m.animations name = some e)
    (hkeys : (m.animations.map Prod.fst).Nodup)
    (hids : (entryIds m.animations).Nodup)
    (hact : m.active.Nodup)
    (hnext : ∀ p ∈ m.animations, p.2.id < m.nextId) :
    (createFloatAnimation m name durationMs startValue endValue).active = m.active.erase e.id
    ∧ e.id ∉ (createFloatAnimation m name durationMs startValue endValue).active
    ∧ e.id ∉ entryIds (createFloatAnimation m name durationMs startValue endValue).animations
    ∧ findEntry (createFloatAnimation m name durationMs startValue endValue).animations name
        = some ⟨m.nextId, freshFloatAnim durationMs startValue endValue⟩
    ∧ (createFloatAnimation m name durationMs startValue endValue).firedCompletions
        = m.firedCompletions
    ∧ (∀ ops : List MgrOp,
        e.id ∉ (runMgr (createFloatAnimation m name durationMs startValue endValue) ops).active
        ∧ (runMgr (createFloatAnimation m name durationMs startValue endValue)
            ops).firedCompletions.count e.id = m.firedCompletions.count e.id) := by
  have hinitf : ¬ m.initialized = false := by simp [hinit]
  have hred : createFloatAnimation m name durationMs startValue endValue =
      { m with
          animations := eraseEntry m.animations name
            ++ [(name, ⟨m.nextId, freshFloatAnim durationMs startValue endValue⟩)]
          active := m.active.erase e.id
          nextId := m.nextId + 1 } := by
    simp only [createFloatAnimation, if_neg hinitf, hfind]
  have hlt : e.id < m.nextId := hnext _ (findEntry_mem hfind)
  have hnotmemerase : e.id ∉ m.active.erase e.id := fun hmem =>
    ((List.Nodup.mem_erase_iff hact).mp hmem).1 rfl
  have hnotids : e.id ∉ entryIds (eraseEntry m.animations name
      ++ [(name, ⟨m.nextId, freshFloatAnim durationMs startValue endValue⟩)]) := by
    rw [entryIds, List.map_append]
    intro hmem
    rcases List.mem_append.mp hmem with h1 | h1
    · exact eraseEntry_id_not_mem hfind hids h1
    · simp at h1; omega
  have huntouched : untouched e.id
      (createFloatAnimation m name durationMs startValue endValue) := by
    rw [hred]
    refine ⟨hnotids, hnotmemerase, ?_⟩
    show e.id < m.nextId + 1
    omega
  refine ⟨by rw [hred], ?_, ?_, ?_, by rw [hred], ?_⟩
  · rw [hred]; exact hnotmemerase
  · rw [hred]; exact hnotids
  · rw [hred]
    show findEntry (eraseEntry m.animations name
        ++ [(name, ⟨m.nextId, freshFloatAnim durationMs startValue endValue⟩)]) name
      = some ⟨m.nextId, freshFloatAnim durationMs startValue endValue⟩
    rw [findEntry_append_of_none (eraseEntry_keys_nodup_find hkeys)]
    simp [findEntry]
  · intro ops
    have hr := untouched_runMgr ops huntouched
    refine ⟨hr.1.2.1, ?_⟩
    rw [hr.2, hred]

/-- Concrete manager state for the C6 witness: one animation named
"opacity" with instance identity 0, currently active. -/
def mgrC6 : AnimMgr :=
  { initialized := true
    animations := [("opacity", ⟨0, freshFloatAnim 300 0 1⟩)]
    active := [0]
    nextId := 1
    firedCompletions := [] }

/-- Witness for c6_create_or_replace at a concrete manager state. -/
theorem c6_create_or_replace_witness :
    (0 : Nat) ∉ (createFloatAnimation mgrC6 "opacity" 200 1 0).active :=
  (c6_create_or_replace mgrC6 "opacity" 200 1 0 ⟨0, freshFloatAnim 300 0 1⟩
    rfl (by decide) (by decide) (by decide) (by decide) (by decide)).2.1

/-! ## ZOrderManager model

Embedded from src/src/rendering/z_order_manager.cpp.  m_visuals is a
std::unordered_map from name to VisualInfo; it is modelled as an
association list with unique keys (list position records insertion order,
which the C++ container does NOT expose to iteration).  The tree field
is the child list of m_rootVisual in attach order, snapshotting the
VisualInfo of each attached visual at rebuild time.  The COM visual
pointers carry no information beyond identity, which the name already
provides, so they are dropped; HRESULT failures of the DirectComposition
calls leave the state unchanged in the C++ code and are not modelled. -/

inductive LayerType where
  | background
  | content
  | ui
  | popup
  | border
  | foreground
  | custom
deriving DecidableEq

/-- ZOrderManager::GetLayerBaseZOrder (lines 316-328). -/
def getLayerBaseZOrder : LayerType → Int
  | .background => 0
  | .content => 1000
  | .ui => 2000
  | .popup => 3000
  | .border => 4000
  | .foreground => 5000
  | .custom => 10000

structure VisualInfo where
  layerType : LayerType
  zOrder : Int
  visible : Bool
deriving DecidableEq

structure ZState where
  initialized : Bool
  visuals : List (String × VisualInfo)
  treeNeedsRebuild : Bool
  tree : List (String × VisualInfo)
deriving DecidableEq

/-- The state right after a successful ZOrderManager::Initialize: empty
map, clean dirty flag (set false in the constructor), empty root visual. -/
def initZState : ZState :=
  { initialized := true, visuals := [], treeNeedsRebuild := false, tree := [] }

/-- m_visuals.find(name). -/
def findVisual : List (String × VisualInfo) → String → Option VisualInfo
  | [], _ => none
  | p :: rest, name => if p.1 = name then some p.2 else findVisual rest name

/-- In-place mutation of the entry the find(name) iterator points at. -/
def setVisual : List (String × VisualInfo) → String → VisualInfo → List (String × VisualInfo)
  | [], _, _ => []
  | p :: rest, name, v => if p.1 = name then (p.1, v) :: rest else p :: setVisual rest name v

/-- m_visuals.erase(it) for the find(name) iterator. -/
def eraseVisual : List (String × VisualInfo) → String → List (String × VisualInfo)
  | [], _ => []
  | p :: rest, name => if p.1 = name then rest else p :: eraseVisual rest name

/-- ZOrderManager::CreateVisual (lines 67-112): when the name is taken the
existing visual is returned and nothing changes (no field update, no dirty
flag); otherwise a new visual is inserted with visible = true and the dirty
flag is set.  No rebuild happens during the call. -/
def createVisual (s : ZState) (name : String) (layerType : LayerType) (zOrder : Int) :
    ZState :=
  if s.initialized = false then s
  else
    match findVisual s.visuals name with
    | some _ => s
    | none =>
        { s with
            visuals := s.visuals ++ [(name, ⟨layerType, zOrder, true⟩)]
            treeNeedsRebuild := true }

/-- ZOrderManager::AddVisual (lines 114-160): upserts - an existing entry
has its layer type and Z-order replaced, a missing entry is inserted with
visible = true; the dirty flag is set in both cases.  The null-visual guard
returns early without changes and is not modelled (the model has no null
visuals).  No rebuild happens during the call. -/
def addVisual (s : ZState) (name : String) (layerType : LayerType) (zOrder : Int) :
    ZState :=
  if s.initialized = false then s
  else
    match findVisual s.visuals name with
    | some v =>
        { s with
            visuals := setVisual s.visuals name ⟨layerType, zOrder, v.visible⟩
            treeNeedsRebuild := true }
    | none =>
        { s with
            visuals := s.visuals ++ [(name, ⟨layerType, zOrder, true⟩)]
            treeNeedsRebuild := true }

/-- ZOrderManager::RemoveVisual (lines 162-179). -/
def removeVisual (s : ZState) (name : String) : ZState :=
  if s.initialized = false then s
  else
    match findVisual s.visuals name with
    | none => s
    | some _ =>
        { s with
            visuals := eraseVisual s.visuals name
            treeNeedsRebuild := true }

/-- ZOrderManager::SetVisualVisibility (lines 195-216): only a real change
of the flag touches the entry and sets the dirty flag. -/
def setVisualVisibility (s : ZState) (name : String) (visible : Bool) : ZState :=
  if s.initialized = false then s
  else
    match findVisual s.visuals name with
    | none => s
    | some v =>
        if v.visible ≠ visible then
          { s with
              visuals := setVisual s.visuals name ⟨v.layerType, v.zOrder, visible⟩
              treeNeedsRebuild := true }
        else s

/-- ZOrderManager::SetVisualZOrder (lines 218-243): only a real change of
layer type or Z-order touches the entry and sets the dirty flag. -/
def setVisualZOrder (s : ZState) (name : String) (layerType : LayerType) (zOrder : Int) :
    ZState :=
  if s.initialized = false then s
  else
    match findVisual s.visuals name with
    | none => s
    | some v =>
        if v.layerType ≠ layerType ∨ v.zOrder ≠ zOrder then
          { s with
              visuals := setVisual s.visuals name ⟨layerType, zOrder, v.visible⟩
              treeNeedsRebuild := true }
        else s

/-- The comparator passed to std::sort in ZOrderManager::RebuildTree
(lines 291-302): layer base order first, then Z-order within the layer. -/
def visualLess (a b : VisualInfo) : Bool :=
  if getLayerBaseZOrder a.layerType ≠ getLayerBaseZOrder b.layerType then
    getLayerBaseZOrder a.layerType < getLayerBaseZOrder b.layerType
  else
    a.zOrder < b.zOrder

/-- The possible outcomes of ZOrderManager::RebuildTree (lines 273-314).
The loop collects the visible entries of m_visuals in iteration order -
std::unordered_map iteration order is unspecified, so any permutation of
the visible entries can be collected - and std::sort guarantees only a
permutation of its input that is sorted with respect to the comparator
(it is not a stable sort).  The net effect is: any comparator-sorted
permutation of the visible entries is a legal rebuilt child list. -/
def ValidRebuild (visuals out : List (String × VisualInfo)) : Prop :=
  out.Perm (visuals.filter (fun p => p.2.visible))
  ∧ out.Pairwise (fun a b => visualLess b.2 a.2 = false)

instance (visuals out : List (String × VisualInfo)) :
    Decidable (ValidRebuild visuals out) := by
  unfold ValidRebuild
  exact instDecidableAnd

/-- One public operation of the ZOrderManager interface. -/
inductive ZOp where
  | create (name : String) (layerType : LayerType) (zOrder : Int)
  | add (name : String) (layerType : LayerType) (zOrder : Int)
  | remove (name : String)
  | setVis (name : String) (visible : Bool)
  | setZ (name : String) (layerType : LayerType) (zOrder : Int)
  | commit
deriving DecidableEq

/-- Small-step semantics of the ZOrderManager operations.  All operations
except Commit are deterministic; ZOrderManager::Commit (lines 245-271)
rebuilds the tree when the dirty flag is set - with any outcome RebuildTree
may legally produce - then clears the flag, and otherwise only submits the
unchanged composition. -/
inductive ZStep : ZState → ZOp → ZState → Prop where
  | create {s name layerType zOrder s2} :
      s2 = createVisual s name layerType zOrder → ZStep s (.create name layerType zOrder) s2
  | add {s name layerType zOrder s2} :
      s2 = addVisual s name layerType zOrder → ZStep s (.add name layerType zOrder) s2
  | remove {s name s2} :
      s2 = removeVisual s name → ZStep s (.remove name) s2
  | setVis {s name visible s2} :
      s2 = setVisualVisibility s name visible → ZStep s (.setVis name visible) s2
  | setZ {s name layerType zOrder s2} :
      s2 = setVisualZOrder s name layerType zOrder → ZStep s (.setZ name layerType zOrder) s2
  | commitRebuild {s s2} (out : List (String × VisualInfo)) :
      s.initialized = true → s.treeNeedsRebuild = true → ValidRebuild s.visuals out →
      s2 = { s with treeNeedsRebuild := false, tree := out } → ZStep s .commit s2
  | commitClean {s} :
      s.initialized = true → s.treeNeedsRebuild = false → ZStep s .commit s
  | commitUninit {s} :
      s.initialized = false → ZStep s .commit s

/-- Execution of a list of operations. -/
inductive ZExec : ZState → List ZOp → ZState → Prop where
  | nil {s} : ZExec s [] s
  | cons {s op s1 ops s2} : ZStep s op s1 → ZExec s1 ops s2 → ZExec s (op :: ops) s2

theorem findVisual_none_not_mem {l : List (String × VisualInfo)} {name : String}
    (h : findVisual l name = none) : name ∉ l.map Prod.fst := by
  induction l with
  | nil => simp
  | cons p rest ih =>
    rw [findVisual] at h
    split at h
    · exact absurd h (by simp)
    · next hp =>
      simp only [List.map_cons, List.mem_cons]
      push_neg
      exact ⟨fun heq => hp heq.symm, ih h⟩

theorem setVisual_keys (l : List (String × VisualInfo)) (name : String) (v : VisualInfo) :
    (setVisual l name v).map Prod.fst = l.map Prod.fst := by
  induction l with
  | nil => rfl
  | cons p rest ih =>
    rw [setVisual]
    split
    · simp
    · simp only [List.map_cons]
      rw [ih]

theorem eraseVisual_sublist (l : List (String × VisualInfo)) (name : String) :
    (eraseVisual l name).Sublist l := by
  induction l with
  | nil => exact List.Sublist.refl _
  | cons p rest ih =>
    rw [eraseVisual]
    split
    · exact List.sublist_cons_self _ _
    · exact List.Sublist.cons₂ _ ih

/-- The reachable-state invariant of the ZOrderManager: the manager stays
initialized, the map keys stay unique, and whenever the dirty flag is clear
the attached child list is a comparator-sorted permutation of the visible
map entries. -/
def ZInv (s : ZState) : Prop :=
  s.initialized = true
  ∧ (s.visuals.map Prod.fst).Nodup
  ∧ (s.treeNeedsRebuild = false →
      s.tree.Perm (s.visuals.filter (fun p => p.2.visible))
      ∧ s.tree.Pairwise (fun a b => visualLess b.2 a.2 = false))

theorem ZInv_init : ZInv initZState := by
  refine ⟨rfl, by simp [initZState], fun _ => ⟨?_, ?_⟩⟩
  · simp [initZState]
  · simp [initZState]

theorem ZStep_inv {s : ZState} {op : ZOp} {s2 : ZState}
    (h : ZStep s op s2) (hinv : ZInv s) : ZInv s2 := by
  obtain ⟨hinit, hkeys, hcons⟩ := hinv
  have hinitf : ¬ s.initialized = false := by simp [hinit]
  cases h with
  | create heq =>
    rename_i name layerType zOrder
    subst heq
    rw [createVisual, if_neg hinitf]
    cases hf : findVisual s.visuals name with
    | some v => exact ⟨hinit, hkeys, hcons⟩
    | none =>
      refine ⟨hinit, ?_, ?_⟩
      · show ((s.visuals ++ [(name, (⟨layerType, zOrder, true⟩ : VisualInfo))]).map Prod.fst).Nodup
        rw [List.map_append]
        simp only [List.map_cons, List.map_nil]
        rw [List.nodup_append]
        refine ⟨hkeys, List.nodup_singleton _, ?_⟩
        intro a ha hb
        rw [List.mem_singleton] at hb
        exact findVisual_none_not_mem hf (hb ▸ ha)
      · intro hfalse
        exact absurd hfalse (by simp)
  | add heq =>
    rename_i name layerType zOrder
    subst heq
    rw [addVisual, if_neg hinitf]
    cases hf : findVisual s.visuals name with
    | some v =>
      refine ⟨hinit, ?_, ?_⟩
      · show ((setVisual s.visuals name ⟨layerType, zOrder, v.visible⟩).map Prod.fst).Nodup
        rw [setVisual_keys]
        exact hkeys
      · intro hfalse
        exact absurd hfalse (by simp)
    | none =>
      refine ⟨hinit, ?_, ?_⟩
      · show ((s.visuals ++ [(name, (⟨layerType, zOrder, true⟩ : VisualInfo))]).map Prod.fst).Nodup
        rw [List.map_append]
        simp only [List.map_cons, List.map_nil]
        rw [List.nodup_append]
        refine ⟨hkeys, List.nodup_singleton _, ?_⟩
        intro a ha hb
        rw [List.mem_singleton] at hb
        exact findVisual_none_not_mem hf (hb ▸ ha)
      · intro hfalse
        exact absurd hfalse (by simp)
  | remove heq =>
    rename_i name
    subst heq
    rw [removeVisual, if_neg hinitf]
    cases hf : findVisual s.visuals name with
    | none => exact ⟨hinit, hkeys, hcons⟩
    | some v =>
      refine ⟨hinit, ?_, ?_⟩
      · show ((eraseVisual s.visuals name).map Prod.fst).Nodup
        exact hkeys.sublist ((eraseVisual_sublist _ _).map _)
      · intro hfalse
        exact absurd hfalse (by simp)
  | setVis heq =>
    rename_i name visible
    subst heq
    rw [setVisualVisibility, if_neg hinitf]
    cases hf : findVisual s.visuals name with
    | none => exact ⟨hinit, hkeys, hcons⟩
    | some v =>
      show ZInv (if v.visible ≠ visible then
          { s with visuals := setVisual s.visuals name ⟨v.layerType, v.zOrder, visible⟩,
                   treeNeedsRebuild := true }
        else s)
      split
      · refine ⟨hinit, ?_, ?_⟩
        · show ((setVisual s.visuals name ⟨v.layerType, v.zOrder, visible⟩).map Prod.fst).Nodup
          rw [setVisual_keys]
          exact hkeys
        · intro hfalse
          exact absurd hfalse (by simp)
      · exact ⟨hinit, hkeys, hcons⟩
  | setZ heq =>
    rename_i name layerType zOrder
    subst heq
    rw [setVisualZOrder, if_neg hinitf]
    cases hf : findVisual s.visuals name with
    | none => exact ⟨hinit, hkeys, hcons⟩
    | some v =>
      show ZInv (if v.layerType ≠ layerType ∨ v.zOrder ≠ zOrder then
          { s with visuals := setVisual s.visuals name ⟨layerType, zOrder, v.visible⟩,
                   treeNeedsRebuild := true }
        else s)
      split
      · refine ⟨hinit, ?_, ?_⟩
        · show ((setVisual s.visuals name ⟨layerType, zOrder, v.visible⟩).map Prod.fst).Nodup
          rw [setVisual_keys]
          exact hkeys
        · intro hfalse
          exact absurd hfalse (by simp)
      · exact ⟨hinit, hkeys, hcons⟩
  | commitRebuild out hi hd hvalid heq =>
    subst heq
    exact ⟨hinit, hkeys, fun _ => ⟨hvalid.1, hvalid.2⟩⟩
  | commitClean hi hd => exact ⟨hinit, hkeys, hcons⟩
  | commitUninit hi => exact absurd hi hinitf

theorem ZExec_inv {s : ZState} {ops : List ZOp} {s2 : ZState}
    (h : ZExec s ops s2) (hinv : ZInv s) : ZInv s2 := by
  induction h with
  | nil => exact hinv
  | cons hstep _ ih => exact ih (ZStep_inv hstep hinv)

theorem zexec_append_commit {s : ZState} {ops : List ZOp} {s2 : ZState}
    (h : ZExec s (ops ++ [ZOp.commit]) s2) :
    ∃ mid, ZExec s ops mid ∧ ZStep mid ZOp.commit s2 := by
  induction ops generalizing s with
  | nil =>
    cases h with
    | cons hstep hrest =>
      cases hrest
      exact ⟨s, ZExec.nil, hstep⟩
  | cons op rest ih =>
    cases h with
    | cons hstep hrest =>
      obtain ⟨mid, hexec, hcommit⟩ := ih hrest
      exact ⟨mid, ZExec.cons hstep hexec, hcommit⟩

theorem ZStep_commit_clean {s s2 : ZState} (h : ZStep s ZOp.commit s2)
    (hinit : s.initialized = true) : s2.treeNeedsRebuild = false := by
  cases h with
  | commitRebuild out hi hd hvalid heq => subst heq; rfl
  | commitClean hi hd => exact hd
  | commitUninit hi => exact absurd hi (by simp [hinit])

/-- C1 amended: after any sequence of visual operations followed by
Commit(), the rebuilt composition tree holds exactly the entries whose
visible flag is true at commit time, each name at most once, in an order
that never decreases in (layerBaseOrder(layer), zOrder); the relative order
of entries with equal keys is NOT constrained (the code iterates a
std::unordered_map and sorts with the unstable std::sort), so neither
insertion-order ties nor determinism are guaranteed. -/
theorem c1_amended_commit (ops : List ZOp) (s : ZState)
    (h : ZExec initZState (ops ++ [ZOp.commit]) s) :
    (∀ e, e ∈ s.tree ↔ (e ∈ s.visuals ∧ e.2.visible = true))
    ∧ s.tree.Pairwise (fun a b => visualLess b.2 a.2 = false)
    ∧ (s.tree.map Prod.fst).Nodup := by
  obtain ⟨mid, hmid, hstep⟩ := zexec_append_commit h
  have hinvmid := ZExec_inv hmid ZInv_init
  have hinv2 := ZStep_inv hstep hinvmid
  have hclean := ZStep_commit_clean hstep hinvmid.1
  obtain ⟨hinit2, hkeys2, hcons⟩ := hinv2
  obtain ⟨hperm, hpair⟩ := hcons hclean
  refine ⟨?_, hpair, ?_⟩
  · intro e
    rw [hperm.mem_iff, List.mem_filter]
  · have hsub : ((s.visuals.filter (fun p => p.2.visible)).map Prod.fst).Nodup :=
      hkeys2.sublist ((List.filter_sublist s.visuals).map Prod.fst)
    exact ((hperm.map Prod.fst).nodup_iff).mpr hsub

/-- The operation sequence of the C1 counterexample: two visuals created
with identical (Content, 5) keys, "A" inserted before "B", then Commit. -/
def zOpsC1 : List ZOp :=
  [ZOp.create "A" LayerType.content 5, ZOp.create "B" LayerType.content 5, ZOp.commit]

/-- A legal post-commit state for zOpsC1 whose tree lists "B" before "A". -/
def zStateBA : ZState :=
  { initialized := true
    visuals := [("A", ⟨LayerType.content, 5, true⟩), ("B", ⟨LayerType.content, 5, true⟩)]
    treeNeedsRebuild := false
    tree := [("B", ⟨LayerType.content, 5, true⟩), ("A", ⟨LayerType.content, 5, true⟩)] }

/-- A legal post-commit state for zOpsC1 whose tree lists "A" before "B". -/
def zStateAB : ZState :=
  { initialized := true
    visuals := [("A", ⟨LayerType.content, 5, true⟩), ("B", ⟨LayerType.content, 5, true⟩)]
    treeNeedsRebuild := false
    tree := [("A", ⟨LayerType.content, 5, true⟩), ("B", ⟨LayerType.content, 5, true⟩)] }

/-- C1 counterexample: the same operation sequence - "A" inserted before
"B", both visible with equal (layerBaseOrder, zOrder) keys - can legally
commit to a tree with "B" attached before "A" as well as to one with "A"
before "B": the rebuilt order on ties is neither the insertion order nor
deterministic, refuting the stability part of the claim. -/
theorem c1_counterexample :
    (ZExec initZState zOpsC1 zStateBA ∧ ZExec initZState zOpsC1 zStateAB)
    ∧ zStateBA.tree.map Prod.fst = ["B", "A"]
    ∧ zStateAB.tree.map Prod.fst = ["A", "B"]
    ∧ zStateBA ≠ zStateAB := by
  refine ⟨⟨?_, ?_⟩, by decide, by decide, by decide⟩
  · exact ZExec.cons (ZStep.create rfl)
      (ZExec.cons (ZStep.create rfl)
        (ZExec.cons
          (ZStep.commitRebuild
            [("B", ⟨LayerType.content, 5, true⟩), ("A", ⟨LayerType.content, 5, true⟩)]
            (by decide) (by decide) (by decide) (by decide))
          ZExec.nil))
  · exact ZExec.cons (ZStep.create rfl)
      (ZExec.cons (ZStep.create rfl)
        (ZExec.cons
          (ZStep.commitRebuild
            [("A", ⟨LayerType.content, 5, true⟩), ("B", ⟨LayerType.content, 5, true⟩)]
            (by decide) (by decide) (by decide) (by decide))
          ZExec.nil))

/-- Operations for the c1_amended_commit witness: create a visual, hide
it, commit. -/
def zOpsWit : List ZOp := [ZOp.create "A" LayerType.content 5, ZOp.setVis "A" false]

/-- Resulting state for the witness execution. -/
def zStateWit : ZState :=
  { initialized := true
    visuals := [("A", ⟨LayerType.content, 5, false⟩)]
    treeNeedsRebuild := false
    tree := [] }

/-- Witness for c1_amended_commit: a hidden visual is absent from the
committed tree. -/
theorem c1_amended_commit_witness :
    ("A", (⟨LayerType.content, 5, false⟩ : VisualInfo)) ∉ zStateWit.tree := by
  intro hmem
  have hiff := (c1_amended_commit zOpsWit zStateWit
    (ZExec.cons (ZStep.create rfl)
      (ZExec.cons (ZStep.setVis rfl)
        (ZExec.cons (ZStep.commitRebuild [] (by decide) (by decide) (by decide) (by decide))
          ZExec.nil)))).1 ("A", ⟨LayerType.content, 5, false⟩)
  exact absurd (hiff.mp hmem).2 (by decide)

theorem findVisual_set {l : List (String × VisualInfo)} {name : String} {v0 : VisualInfo}
    (h : findVisual l name = some v0) (v : VisualInfo) :
    findVisual (setVisual l name v) name = some v := by
  induction l with
  | nil => simp [findVisual] at h
  | cons p rest ih =>
    rw [findVisual] at h
    rw [setVisual]
    split
    · next hp => rw [findVisual, if_pos hp]
    · next hp =>
      rw [if_neg hp] at h
      rw [findVisual, if_neg hp]
      exact ih h

theorem findVisual_append_none {l1 l2 : List (String × VisualInfo)} {name : String}
    (h : findVisual l1 name = none) :
    findVisual (l1 ++ l2) name = findVisual l2 name := by
  induction l1 with
  | nil => rfl
  | cons p rest ih =>
    rw [findVisual] at h
    rw [List.cons_append, findVisual]
    split at h
    · exact absurd h (by simp)
    · next hp => rw [if_neg hp]; exact ih h

/-- C5 amended: AddVisual is the upsert - it updates layer and zOrder of an
existing node (keeping its visibility) or inserts a new visible node, sets
the dirty flag in both cases and never touches the tree during the call.
CreateVisual only inserts: on an existing id it returns the existing visual
and changes nothing at all - no field update and no dirty flag; on a
missing id it inserts and sets the dirty flag.  Neither call rebuilds the
tree; the rebuild is deferred to Commit(). -/
theorem c5_amended (s : ZState) (name : String) (layerType : LayerType) (zOrder : Int)
    (hinit : s.initialized = true) :
    ((addVisual s name layerType zOrder).treeNeedsRebuild = true)
    ∧ ((addVisual s name layerType zOrder).tree = s.tree)
    ∧ (∀ v, findVisual s.visuals name = some v →
        findVisual (addVisual s name layerType zOrder).visuals name
          = some ⟨layerType, zOrder, v.visible⟩)
    ∧ (findVisual s.visuals name = none →
        findVisual (addVisual s name layerType zOrder).visuals name
          = some ⟨layerType, zOrder, true⟩)
    ∧ (∀ v, findVisual s.visuals name = some v →
        createVisual s name layerType zOrder = s)
    ∧ ((createVisual s name layerType zOrder).tree = s.tree)
    ∧ ((createVisual s name layerType zOrder).treeNeedsRebuild
        = if findVisual s.visuals name = none then true else s.treeNeedsRebuild) := by
  have hinitf : ¬ s.initialized = false := by simp [hinit]
  cases hf : findVisual s.visuals name with
  | some v =>
    have hadd : addVisual s name layerType zOrder
        = { s with visuals := setVisual s.visuals name ⟨layerType, zOrder, v.visible⟩,
                   treeNeedsRebuild := true } := by
      simp only [addVisual, if_neg hinitf, hf]
    have hcreate : createVisual s name layerType zOrder = s := by
      simp only [createVisual, if_neg hinitf, hf]
    rw [hadd, hcreate]
    refine ⟨rfl, rfl, ?_, ?_, fun _ _ => rfl, rfl, ?_⟩
    · intro v2 hv2
      injection hv2 with hv2
      subst hv2
      show findVisual (setVisual s.visuals name ⟨layerType, zOrder, v.visible⟩) name
        = some ⟨layerType, zOrder, v.visible⟩
      exact findVisual_set hf _
    · intro hnone
      exact absurd hnone (by simp)
    · simp
  | none =>
    have hadd : addVisual s name layerType zOrder
        = { s with visuals := s.visuals ++ [(name, ⟨layerType, zOrder, true⟩)],
                   treeNeedsRebuild := true } := by
      simp only [addVisual, if_neg hinitf, hf]
    have hcreate : createVisual s name layerType zOrder
        = { s with visuals := s.visuals ++ [(name, ⟨layerType, zOrder, true⟩)],
                   treeNeedsRebuild := true } := by
      simp only [createVisual, if_neg hinitf, hf]
    rw [hadd, hcreate]
    refine ⟨rfl, rfl, ?_, ?_, ?_, rfl, ?_⟩
    · intro v2 hv2
      exact absurd hv2 (by simp)
    · intro _
      show findVisual (s.visuals ++ [(name, ⟨layerType, zOrder, true⟩)]) name
        = some ⟨layerType, zOrder, true⟩
      rw [findVisual_append_none hf, findVisual, if_pos rfl]
    · intro v2 hv2
      exact absurd hv2 (by simp)
    · simp

/-- Concrete ZOrderManager state for the C5 counterexample and witness:
one visual "A" on the Content layer with Z-order 5, clean dirty flag. -/
def zStateC5 : ZState :=
  { initialized := true
    visuals := [("A", ⟨LayerType.content, 5, true⟩)]
    treeNeedsRebuild := false
    tree := [] }

/-- C5 counterexample: CreateVisual on an existing id with a different
layer and Z-order changes nothing - the node keeps (Content, 5), the dirty
flag stays clear - refuting the claimed upsert-and-mark-dirty behaviour
for the existing-id case. -/
theorem c5_counterexample :
    createVisual zStateC5 "A" LayerType.ui 7 = zStateC5
    ∧ (createVisual zStateC5 "A" LayerType.ui 7).treeNeedsRebuild = false
    ∧ findVisual (createVisual zStateC5 "A" LayerType.ui 7).visuals "A"
        = some ⟨LayerType.content, 5, true⟩ := by decide

/-- Witness for c5_amended at a concrete state. -/
theorem c5_amended_witness :
    (addVisual zStateC5 "A" LayerType.ui 7).treeNeedsRebuild = true :=
  (c5_amended zStateC5 "A" LayerType.ui 7 rfl).1

/-! ## OverlayWindow visibility and opacity model

Embedded from src/src/window/overlay_window.cpp, OverlayWindow::SetVisible
(lines 247-297) together with the "opacity" FloatAnimation it installs and
the AnimationManager::Update tick that drives it.  The window handle is
assumed valid (post-Create).  The native ShowWindow state always moves in
lock step with m_visible in this code path, so one flag models both. -/

structure WState where
  windowVisible : Bool
  opacity : ℚ
  configOpacity : ℚ
  fadeAnim : Option FloatAnim
deriving DecidableEq

/-- The body of the onValue lambda created in OverlayWindow::SetVisible
(lines 256-270): store the value in m_opacity (and push it to the
renderer), then hide the window outright once the value drops below 0.01
while the window is still visible.  The literal 0.01f is modelled as
1/100. -/
def applyOpacityValue (w : WState) (value : ℚ) : WState :=
  if value < 1/100 ∧ w.windowVisible = true then
    { w with opacity := value, windowVisible := false }
  else
    { w with opacity := value }

/-- OverlayWindow::SetVisible (lines 247-297).  Nothing happens when the
requested visibility equals m_visible.  On the animated path the method
replaces the "opacity" animation with one running from the current opacity
to the target over 300 ms and starts it - Animation::Start immediately
fires one onValue with the start value - and only then, when showing,
calls ShowWindow(SW_SHOW) and sets m_visible.  On the non-animated path
the window is shown or hidden directly and the opacity is set to the
target value. -/
def setVisible (w : WState) (visible animate : Bool) (now : Nat) : WState :=
  if w.windowVisible = visible then w
  else if animate then
    let inst := animStart
      (freshFloatAnim 300 w.opacity (if visible = true then w.configOpacity else 0)) now
    let w1 := { applyOpacityValue w inst.currentValue with fadeAnim := some inst }
    if visible = true ∧ w1.windowVisible = false then { w1 with windowVisible := true }
    else w1
  else
    { w with windowVisible := visible, opacity := if visible = true then w.configOpacity else 0 }

/-- One AnimationManager::Update tick reaching the "opacity" instance
installed by SetVisible: Animation::Update recomputes progress and value
and the onValue lambda applies the value to the window. -/
def tickOpacity (w : WState) (now : Nat) : WState :=
  match w.fadeAnim with
  | none => w
  | some a =>
    if a.running = true then
      let r := animUpdate a now
      { applyOpacityValue w r.1.currentValue with fadeAnim := some r.1 }
    else w

theorem applyOpacityValue_opacity (w : WState) (value : ℚ) :
    (applyOpacityValue w value).opacity = value := by
  unfold applyOpacityValue
  split <;> rfl

theorem applyOpacityValue_visible (w : WState) (value : ℚ) (hvis : w.windowVisible = true) :
    ((applyOpacityValue w value).windowVisible = false ↔ value < 1/100) := by
  unfold applyOpacityValue
  split
  · next hcond => exact iff_of_true rfl hcond.1
  · next hcond =>
    show w.windowVisible = false ↔ value < 1/100
    rw [hvis]
    simp only [hvis, and_true] at hcond
    exact iff_of_false (by simp) hcond

theorem animUpdate_currentValue (a : FloatAnim) (now : Nat) (h : a.running = true) :
    (animUpdate a now).1.currentValue
      = a.startValue + (a.endValue - a.startValue) * tickProgress a now := by
  by_cases h1 : 1 ≤ tickProgress a now
  · rw [animUpdate_complete a now h h1]
  · rw [animUpdate_continue a now h h1]

/-- C3 amended: SetVisible(true, animate=true) makes the native window
visible synchronously within the call - immediately after the fade-in
animation has been created and started, not before.  During an animated
fade the window is hidden exactly on the tick whose interpolated opacity
value drops below 0.01 - which can happen while progress is still below 1 -
and the stored opacity then equals that residual positive value, so a
hidden window can report a positive opacity.  Only the non-animated hide
forces opacity to 0 together with the visibility change. -/
theorem c3_amended (w : WState) (now : Nat) :
    ((setVisible w true true now).windowVisible = true)
    ∧ (∀ a, w.fadeAnim = some a → a.running = true → w.windowVisible = true →
        (tickOpacity w now).opacity
            = a.startValue + (a.endValue - a.startValue) * tickProgress a now
        ∧ ((tickOpacity w now).windowVisible = false
            ↔ a.startValue + (a.endValue - a.startValue) * tickProgress a now < 1/100))
    ∧ (w.windowVisible = true →
        (setVisible w false false now).windowVisible = false
        ∧ (setVisible w false false now).opacity = 0) := by
  refine ⟨?_, ?_, ?_⟩
  · by_cases hw : w.windowVisible = true
    · simp only [setVisible, if_pos hw]
      exact hw
    · have hw2 : w.windowVisible = false := by
        cases hvb : w.windowVisible
        · rfl
        · exact absurd hvb hw
      simp [setVisible, applyOpacityValue, hw2]
  · intro a ha hrun hvis
    simp only [tickOpacity, ha]
    rw [if_pos hrun]
    refine ⟨?_, ?_⟩
    · show (applyOpacityValue w (animUpdate a now).1.currentValue).opacity = _
      rw [applyOpacityValue_opacity, animUpdate_currentValue a now hrun]
    · show ((applyOpacityValue w (animUpdate a now).1.currentValue).windowVisible = false ↔ _)
      rw [applyOpacityValue_visible w _ hvis, animUpdate_currentValue a now hrun]
  · intro hvis
    simp [setVisible, hvis]

/-- A hidden window state used by the c3_amended witness. -/
def wHiddenC3 : WState :=
  { windowVisible := false, opacity := 0, configOpacity := 1, fadeAnim := none }

/-- Witness for c3_amended: an animated show from the hidden state. -/
theorem c3_amended_witness :
    (setVisible wHiddenC3 true true 0).windowVisible = true :=
  (c3_amended wHiddenC3 0).1

/-- The starting state of the C3 counterexample: a fully shown window at
opacity 1 (equal to the configured opacity), no fade running. -/
def wStartC3 : WState :=
  { windowVisible := true, opacity := 1, configOpacity := 1, fadeAnim := none }

/-- C3 counterexample: SetVisible(false, animate=true) at t = 0 followed by
one animation tick at t = 299 ms hides the native window although the fade
progress is 299/300 < 1, and the hidden window reports opacity 1/300 > 0 -
refuting both the hide-only-at-progress-1 part and the
hidden-implies-opacity-0 part of the claim. -/
theorem c3_counterexample :
    ((tickOpacity (setVisible wStartC3 false true 0) 299).windowVisible = false)
    ∧ (tickOpacity (setVisible wStartC3 false true 0) 299).opacity = 1/300
    ∧ (0 : ℚ) < (tickOpacity (setVisible wStartC3 false true 0) 299).opacity
    ∧ ((tickOpacity (setVisible wStartC3 false true 0) 299).fadeAnim.map
          (fun a => a.progress)) = some (299/300)
    ∧ (299/300 : ℚ) < 1 := by
  norm_num [tickOpacity, setVisible, applyOpacityValue, animStart, animUpdate,
    updateValue, tickProgress, clamp01, freshFloatAnim, wStartC3]

/-! ## OverlayWindow::Create failure model

Embedded from src/src/window/overlay_window.cpp, OverlayWindow::Create
(lines 120-209) and src/src/rendering/overlay_renderer.cpp,
OverlayRenderer::Initialize (lines 35-74).  The environment records which
OS and GPU resource acquisitions succeed; Create is modelled as a function
of those outcomes. -/

structure CreateEnv where
  windowOk : Bool
  deviceOk : Bool
  renderOk : Bool
  compositionOk : Bool
deriving DecidableEq

/-- OverlayRenderer::Initialize: CreateDeviceResources,
CreateRenderResources and SetupComposition must all succeed, otherwise it
returns false. -/
def rendererInitialize (e : CreateEnv) : Bool :=
  e.deviceOk && e.renderOk && e.compositionOk

structure CreateResult where
  success : Bool
  rendererInitialized : Bool
  usedLayeredFallback : Bool
  compositionEnabled : Bool
deriving DecidableEq

/-- OverlayWindow::Create (lines 120-209): a CreateWindowExW failure makes
Create report an error and return false; a renderer Initialize failure
makes Create report an error and return false at lines 155-162, before
the fallback at line 181 can run; when the renderer initialized,
InitializeComposition (lines 459-468) sees m_renderer non-null and returns
true immediately, so the SetLayeredWindowAttributes fallback branch at
lines 180-182 never executes and composition is enabled. -/
def overlayCreate (e : CreateEnv) : CreateResult :=
  if e.windowOk = false then
    { success := false, rendererInitialized := false, usedLayeredFallback := false,
      compositionEnabled := false }
  else if rendererInitialize e = false then
    { success := false, rendererInitialized := false, usedLayeredFallback := false,
      compositionEnabled := false }
  else
    { success := true, rendererInitialized := true, usedLayeredFallback := false,
      compositionEnabled := true }

/-- C4 amended: a GPU-resource-creation failure during overlay creation
(device, swap chain or composition target) is fatal to Create(): the error
is reported and Create returns false, and the software layered-alpha
fallback is NOT engaged on that path; only a fully successful renderer
initialization lets Create succeed, with hardware composition enabled. -/
theorem c4_amended (e : CreateEnv) (hw : e.windowOk = true) :
    (rendererInitialize e = false →
      (overlayCreate e).success = false ∧ (overlayCreate e).usedLayeredFallback = false)
    ∧ (rendererInitialize e = true →
      (overlayCreate e).success = true ∧ (overlayCreate e).compositionEnabled = true) := by
  constructor
  · intro hr
    simp [overlayCreate, hw, hr]
  · intro hr
    simp [overlayCreate, hw, hr]

/-- Witness for c4_amended: device creation fails in an otherwise healthy
environment. -/
theorem c4_amended_witness :
    (overlayCreate
      { windowOk := true, deviceOk := false, renderOk := true, compositionOk := true }
    ).success = false :=
  ((c4_amended
      { windowOk := true, deviceOk := false, renderOk := true, compositionOk := true }
      rfl).1 rfl).1

/-- C4 counterexample: with the native window created but the D3D device
creation failing, Create() returns false and no software-composited
fallback is engaged - overlay creation does not succeed, refuting the
claimed non-fatal downgrade. -/
theorem c4_counterexample :
    (overlayCreate
        { windowOk := true, deviceOk := false, renderOk := true, compositionOk := true })
      = { success := false, rendererInitialized := false, usedLayeredFallback := false,
          compositionEnabled := false } := by decide

/-! ## WindowManager focus handling model

Embedded from src/src/window/window_manager.cpp,
WindowManager::HandleWindowEvent (lines 216-247), and
src/src/window/overlay_window.cpp, OverlayWindow::SetMode (lines 303-309).
The handler runs synchronously inside the window procedure, i.e. within
the message-loop iteration that delivered the message; its SetFocus call
is returned as the second component. -/

inductive WMode where
  | interactive
  | clickThrough
deriving DecidableEq

structure WMState where
  running : Bool
  gameWindow : Option Nat
  mode : WMode
deriving DecidableEq

/-- OverlayWindow::SetMode: records the new mode (and reapplies the
WS_EX_TRANSPARENT style); idempotent when the mode is unchanged. -/
def setMode (s : WMState) (mode : WMode) : WMState :=
  { s with mode := mode }

inductive WMsg where
  | close
  | size
  | setFocus
  | activate (wParamLow : Nat)
  | other (code : Nat)
deriving DecidableEq

/-- WindowManager::IsGameWindowValid (lines 181-183). -/
def gameWindowValid (isWindow : Nat → Bool) (s : WMState) : Bool :=
  match s.gameWindow with
  | some g => isWindow g
  | none => false

/-- WindowManager::HandleWindowEvent (lines 216-247): WM_CLOSE stops the
loop; WM_SETFOCUS and WM_ACTIVATE with a non-inactive low word (WA_INACTIVE
is 0) return focus to the tracked game window via SetFocus when it is
valid.  The second component is the window SetFocus was called on during
the handling, the third the LRESULT. -/
def handleWindowEvent (isWindow : Nat → Bool) (s : WMState) (msg : WMsg) :
    WMState × Option Nat × Int :=
  match msg with
  | .close => ({ s with running := false }, none, 0)
  | .size => (s, none, 0)
  | .setFocus =>
      match s.gameWindow with
      | some g => if isWindow g = true then (s, some g, 0) else (s, none, 0)
      | none => (s, none, 0)
  | .activate w =>
      if w ≠ 0 then
        match s.gameWindow with
        | some g => if isWindow g = true then (s, some g, 0) else (s, none, 0)
        | none => (s, none, 0)
      else (s, none, 0)
  | .other _ => (s, none, 0)

/-- C7: whenever the overlay receives WM_SETFOCUS, or WM_ACTIVATE with a
non-inactive state, while a live game window is tracked - in any
interaction mode, in particular right after SetMode(ClickThrough) - the
handler synchronously calls SetFocus on the game window within the same
message-handling call, so the overlay never retains the OS input focus. -/
theorem c7_focus_return (isWindow : Nat → Bool) (s : WMState) (g : Nat) (mode : WMode)
    (hg : s.gameWindow = some g) (hw : isWindow g = true) :
    ((handleWindowEvent isWindow (setMode s mode) WMsg.setFocus).2.1 = some g)
    ∧ (∀ w, w ≠ 0 →
        (handleWindowEvent isWindow (setMode s mode) (WMsg.activate w)).2.1 = some g)
    ∧ ((handleWindowEvent isWindow (setMode s mode) WMsg.setFocus).1.gameWindow = some g)
    ∧ ((handleWindowEvent isWindow (setMode s mode) WMsg.setFocus).1.mode = mode) := by
  refine ⟨?_, ?_, ?_, ?_⟩
  · simp [handleWindowEvent, setMode, hg, hw]
  · intro w hwz
    simp [handleWindowEvent, setMode, hg, hw, hwz]
  · simp [handleWindowEvent, setMode, hg, hw]
  · simp [handleWindowEvent, setMode, hg, hw]

/-- Witness for c7_focus_return: game window 7 tracked, overlay switched to
click-through, WM_SETFOCUS arrives. -/
theorem c7_focus_return_witness :
    (handleWindowEvent (fun _ => true)
        (setMode { running := true, gameWindow := some 7, mode := WMode.interactive }
          WMode.clickThrough)
        WMsg.setFocus).2.1 = some 7 :=
  (c7_focus_return (fun _ => true)
    { running := true, gameWindow := some 7, mode := WMode.interactive }
    7 WMode.clickThrough rfl rfl).1

/-! ## FocusTracker model

Embedded from src/src/process/focus_tracker.cpp.  The OS environment is a
partial map from live window handles to (title, owning process id);
GetForegroundWindow results are passed in as the foreground parameter. -/

structure FocusChangeInfo where
  previousWindow : Option Nat
  currentWindow : Option Nat
  previousTitle : String
  currentTitle : String
  previousProcessId : Nat
  currentProcessId : Nat
  timestamp : Nat
deriving DecidableEq

structure FocusTrackerState where
  initialized : Bool
  lastFocusInfo : FocusChangeInfo
deriving DecidableEq

/-- FocusTracker::GetWindowInfo (lines 249-267): a null or dead handle
yields an empty title and process id 0. -/
def getWindowInfo (env : Nat → Option (String × Nat)) : Option Nat → String × Nat
  | none => ("", 0)
  | some h =>
      match env h with
      | none => ("", 0)
      | some info => info

/-- FocusTracker::UpdateFocusInfo (lines 202-247): when the incoming
foreground window differs from the recorded one, a fresh FocusChangeInfo
is built, stored as the new last focus info and handed to
NotifyFocusChange; otherwise nothing changes and nothing is emitted. -/
def updateFocusInfo (env : Nat → Option (String × Nat)) (s : FocusTrackerState)
    (currentWindow : Option Nat) (now : Nat) :
    FocusTrackerState × Option FocusChangeInfo :=
  if s.initialized = false then (s, none)
  else if s.lastFocusInfo.currentWindow = currentWindow then (s, none)
  else
    let info := getWindowInfo env currentWindow
    let newInfo : FocusChangeInfo :=
      { previousWindow := s.lastFocusInfo.currentWindow
        currentWindow := currentWindow
        previousTitle := s.lastFocusInfo.currentTitle
        currentTitle := info.1
        previousProcessId := s.lastFocusInfo.currentProcessId
        currentProcessId := info.2
        timestamp := now }
    ({ s with lastFocusInfo := newInfo }, some newInfo)

/-- FocusTracker::Update (lines 161-170): a no-op unless initialized,
otherwise reads the OS foreground window and delegates to
UpdateFocusInfo. -/
def focusUpdate (env : Nat → Option (String × Nat)) (s : FocusTrackerState)
    (foreground : Option Nat) (now : Nat) :
    FocusTrackerState × Option FocusChangeInfo :=
  if s.initialized = false then (s, none)
  else updateFocusInfo env s foreground now

/-- C8: Update() emits a FocusChangeRecord if and only if the OS foreground
window differs from the previously recorded one; the emitted record
describes exactly that transition and becomes the new recorded state, an
unchanged foreground leaves the state untouched and emits nothing, and an
immediate second Update() with the same foreground emits nothing - so each
transition produces exactly one record. -/
theorem c8_focus_transitions (env : Nat → Option (String × Nat))
    (s : FocusTrackerState) (fg : Option Nat) (now later : Nat)
    (hinit : s.initialized = true) :
    ((focusUpdate env s fg now).2.isSome = true ↔ fg ≠ s.lastFocusInfo.currentWindow)
    ∧ (∀ rec, (focusUpdate env s fg now).2 = some rec →
        rec.previousWindow = s.lastFocusInfo.currentWindow
        ∧ rec.previousTitle = s.lastFocusInfo.currentTitle
        ∧ rec.previousProcessId = s.lastFocusInfo.currentProcessId
        ∧ rec.currentWindow = fg
        ∧ (rec.currentTitle, rec.currentProcessId) = getWindowInfo env fg
        ∧ rec.timestamp = now
        ∧ (focusUpdate env s fg now).1.lastFocusInfo = rec)
    ∧ (fg = s.lastFocusInfo.currentWindow → focusUpdate env s fg now = (s, none))
    ∧ ((focusUpdate env (focusUpdate env s fg now).1 fg later).2 = none) := by
  have hinitf : ¬ s.initialized = false := by simp [hinit]
  by_cases heq : s.lastFocusInfo.currentWindow = fg
  · rw [focusUpdate, if_neg hinitf, updateFocusInfo, if_neg hinitf, if_pos heq]
    refine ⟨?_, ?_, ?_, ?_⟩
    · exact iff_of_false (by simp) (fun hne => hne heq.symm)
    · intro rec hrec
      exact absurd hrec (by simp)
    · intro _
      rfl
    · show (focusUpdate env s fg later).2 = none
      rw [focusUpdate, if_neg hinitf, updateFocusInfo, if_neg hinitf, if_pos heq]
  · rw [focusUpdate, if_neg hinitf, updateFocusInfo, if_neg hinitf, if_neg heq]
    refine ⟨?_, ?_, ?_, ?_⟩
    · exact iff_of_true rfl (fun h => heq h.symm)
    · intro rec hrec
      simp only [Option.some.injEq] at hrec
      subst hrec
      exact ⟨rfl, rfl, rfl, rfl, rfl, rfl, rfl⟩
    · intro hcontra
      exact absurd hcontra.symm heq
    · show (focusUpdate env { s with lastFocusInfo := _ } fg later).2 = none
      rw [focusUpdate, if_neg hinitf, updateFocusInfo, if_neg hinitf, if_pos rfl]

/-- Initial FocusTracker state right after Initialize observed a null
foreground window (constructor state, lines 9-20). -/
def focusTrackerInit : FocusTrackerState :=
  { initialized := true
    lastFocusInfo :=
      { previousWindow := none, currentWindow := none, previousTitle := ""
        currentTitle := "", previousProcessId := 0, currentProcessId := 0
        timestamp := 0 } }

/-- Witness for c8_focus_transitions: the "Path of Exile" window becomes
the foreground window and exactly one record is emitted. -/
theorem c8_focus_transitions_witness :
    (focusUpdate (fun _ => some ("Path of Exile", 42)) focusTrackerInit
        (some 5) 10).2.isSome = true :=
  ((c8_focus_transitions (fun _ => some ("Path of Exile", 42)) focusTrackerInit
      (some 5) 10 10 rfl).1).mpr (by decide)

/-! ## Notification boundary model

Embedded from FocusTracker::NotifyFocusChange (focus_tracker.cpp lines
269-290), ProcessDetector::NotifyStateChange (process_detector.cpp lines
430-451) and WindowStateTracker::NotifyStateChange (window_state_tracker.cpp
lines 368-389).  All three first copy the callback list under the lock and
then invoke each entry inside try/catch: a std::exception thrown by a
handler is reported through ReportException with the component name and
the loop continues.  A handler is modelled as a function that either
returns normally or throws (Except.error with the exception text); the
result is the list of invoked callback ids in order plus the report log. -/

def runHandlers {α : Type} (component : String)
    (handlers : List (Nat × (α → Except String Unit))) (info : α) :
    List Nat × List (String × String) :=
  match handlers with
  | [] => ([], [])
  | (cid, h) :: rest =>
    let logged : List (String × String) :=
      match h info with
      | Except.ok _ => []
      | Except.error e => [(component, e)]
    let r := runHandlers component rest info
    (cid :: r.1, logged ++ r.2)

theorem runHandlers_spec {α : Type} (component : String)
    (handlers : List (Nat × (α → Except String Unit))) (info : α) :
    (runHandlers component handlers info).1 = handlers.map (fun p => p.1)
    ∧ (runHandlers component handlers info).2
        = handlers.filterMap (fun p =>
            match p.2 info with
            | Except.ok _ => none
            | Except.error e => some (component, e)) := by
  induction handlers with
  | nil => exact ⟨rfl, rfl⟩
  | cons p rest ih =>
    rw [runHandlers]
    cases hp : p.2 info with
    | ok u => simp [List.filterMap_cons, hp, ih.1, ih.2]
    | error e => simp [List.filterMap_cons, hp, ih.1, ih.2]

inductive WindowState where
  | normal
  | minimized
  | maximized
  | hidden
  | invalid
deriving DecidableEq

structure Rect where
  left : Int
  top : Int
  right : Int
  bottom : Int
deriving DecidableEq

structure WindowStateInfo where
  handle : Nat
  title : String
  state : WindowState
  hasFocus : Bool
  bounds : Rect
  processId : Nat
  isTopmost : Bool
deriving DecidableEq

inductive ProcessState where
  | notFound
  | running
  | starting
  | terminating
deriving DecidableEq

structure ProcessInfo where
  name : String
  windowTitle : String
  processId : Nat
  windowHandle : Nat
  state : ProcessState
  hasFocus : Bool
  isMinimized : Bool
  windowRect : Rect
deriving DecidableEq

/-- FocusTracker::NotifyFocusChange. -/
def notifyFocusChange (handlers : List (Nat × (FocusChangeInfo → Except String Unit)))
    (info : FocusChangeInfo) : List Nat × List (String × String) :=
  runHandlers "FocusTracker" handlers info

/-- ProcessDetector::NotifyStateChange. -/
def notifyProcessStateChange (handlers : List (Nat × (ProcessInfo → Except String Unit)))
    (info : ProcessInfo) : List Nat × List (String × String) :=
  runHandlers "ProcessDetector" handlers info

/-- WindowStateTracker::NotifyStateChange (the callbacks receive the old
and the new snapshot). -/
def notifyWindowStateChange
    (handlers : List (Nat × (WindowStateInfo × WindowStateInfo → Except String Unit)))
    (pair : WindowStateInfo × WindowStateInfo) : List Nat × List (String × String) :=
  runHandlers "WindowStateTracker" handlers pair

/-- C9: in each of the three trackers, a notification pass invokes every
registered handler of the snapshot exactly once and in order regardless of
exceptions, logs each thrown exception with the component name, and always
returns normally (the notifying operation is a total function, so no
handler exception reaches its caller). -/
theorem c9_callback_fault_isolation :
    (∀ (handlers : List (Nat × (FocusChangeInfo → Except String Unit))) info,
      (notifyFocusChange handlers info).1 = handlers.map (fun p => p.1)
      ∧ (notifyFocusChange handlers info).2
          = handlers.filterMap (fun p =>
              match p.2 info with
              | Except.ok _ => none
              | Except.error e => some ("FocusTracker", e)))
    ∧ (∀ (handlers : List (Nat × (ProcessInfo → Except String Unit))) info,
      (notifyProcessStateChange handlers info).1 = handlers.map (fun p => p.1)
      ∧ (notifyProcessStateChange handlers info).2
          = handlers.filterMap (fun p =>
              match p.2 info with
              | Except.ok _ => none
              | Except.error e => some ("ProcessDetector", e)))
    ∧ (∀ (handlers : List (Nat × (WindowStateInfo × WindowStateInfo → Except String Unit)))
        pair,
      (notifyWindowStateChange handlers pair).1 = handlers.map (fun p => p.1)
      ∧ (notifyWindowStateChange handlers pair).2
          = handlers.filterMap (fun p =>
              match p.2 pair with
              | Except.ok _ => none
              | Except.error e => some ("WindowStateTracker", e))) :=
  ⟨fun handlers info => runHandlers_spec "FocusTracker" handlers info,
   fun handlers info => runHandlers_spec "ProcessDetector" handlers info,
   fun handlers pair => runHandlers_spec "WindowStateTracker" handlers pair⟩

/-! ## WindowStateTracker::AddWindow model

Embedded from src/src/process/window_state_tracker.cpp.  The OS
environment supplies liveness (IsWindow) and the GetWindowInfo snapshot;
handle 0 is the null HWND. -/

structure WSTState where
  initialized : Bool
  windowStates : List (Nat × WindowStateInfo)
deriving DecidableEq

/-- m_windowStates.find(handle). -/
def findWindowState : List (Nat × WindowStateInfo) → Nat → Option WindowStateInfo
  | [], _ => none
  | p :: rest, handle => if p.1 = handle then some p.2 else findWindowState rest handle

/-- WindowStateTracker::AddWindow (lines 117-147): rejects when the tracker
is uninitialized, the handle is null, the handle is not a live window, or
the handle is already tracked; otherwise stores the initial snapshot. -/
def addWindow (isWindow : Nat → Bool) (getInfo : Nat → WindowStateInfo)
    (s : WSTState) (handle : Nat) : WSTState × Bool :=
  if s.initialized = false ∨ handle = 0 ∨ isWindow handle = false then (s, false)
  else if (findWindowState s.windowStates handle).isSome = true then (s, false)
  else ({ s with windowStates := s.windowStates ++ [(handle, getInfo handle)] }, true)

/-- WindowStateTracker::IsWindowTracked (lines 200-209). -/
def isWindowTracked (s : WSTState) (handle : Nat) : Bool :=
  if s.initialized = false then false
  else (findWindowState s.windowStates handle).isSome

theorem findWindowState_append_self (l : List (Nat × WindowStateInfo)) (h : Nat)
    (info : WindowStateInfo) : (findWindowState (l ++ [(h, info)]) h).isSome = true := by
  induction l with
  | nil => simp [findWindowState]
  | cons p rest ih =>
    rw [List.cons_append, findWindowState]
    split
    · rfl
    · exact ih

/-- C10: AddWindow(h) returns false and leaves the tracked-window map - and
so every stored per-window snapshot - completely unchanged whenever h is
null, not a live OS window, or already tracked; and a successful AddWindow
followed by a second AddWindow of the same handle rejects the second call
without touching the state stored by the first. -/
theorem c10_addwindow_rejects (isWindow : Nat → Bool) (getInfo : Nat → WindowStateInfo)
    (s : WSTState) (handle : Nat)
    (h : handle = 0 ∨ isWindow handle = false ∨ isWindowTracked s handle = true) :
    addWindow isWindow getInfo s handle = (s, false)
    ∧ (∀ s2 h2, addWindow isWindow getInfo s2 h2 = (s2, false) →
        isWindowTracked (addWindow isWindow getInfo s2 h2).1 h2 = isWindowTracked s2 h2)
    ∧ (∀ s2 h2, (addWindow isWindow getInfo s2 h2).2 = true →
        addWindow isWindow getInfo (addWindow isWindow getInfo s2 h2).1 h2
          = ((addWindow isWindow getInfo s2 h2).1, false)) := by
  refine ⟨?_, ?_, ?_⟩
  · rcases h with h0 | hlive | htracked
    · rw [addWindow, if_pos (Or.inr (Or.inl h0))]
    · rw [addWindow, if_pos (Or.inr (Or.inr hlive))]
    · rw [isWindowTracked] at htracked
      by_cases hinit : s.initialized = false
      · rw [if_pos hinit] at htracked
        exact absurd htracked (by simp)
      · rw [if_neg hinit] at htracked
        by_cases hguard : (s.initialized = false ∨ handle = 0 ∨ isWindow handle = false)
        · rw [addWindow, if_pos hguard]
        · rw [addWindow, if_neg hguard, if_pos htracked]
  · intro s2 h2 heq
    rw [heq]
  · intro s2 h2 hsucc
    by_cases hguard : (s2.initialized = false ∨ h2 = 0 ∨ isWindow h2 = false)
    · rw [addWindow, if_pos hguard] at hsucc
      exact absurd hsucc (by simp)
    · by_cases htr : (findWindowState s2.windowStates h2).isSome = true
      · rw [addWindow, if_neg hguard, if_pos htr] at hsucc
        exact absurd hsucc (by simp)
      · have hfirst : addWindow isWindow getInfo s2 h2
            = ({ s2 with windowStates := s2.windowStates ++ [(h2, getInfo h2)] }, true) := by
          rw [addWindow, if_neg hguard, if_neg htr]
        rw [hfirst]
        push_neg at hguard
        rw [addWindow,
          if_neg (by
            push_neg
            exact ⟨hguard.1, hguard.2.1, hguard.2.2⟩),
          if_pos (findWindowState_append_self s2.windowStates h2 (getInfo h2))]

/-- Concrete tracker state for the C10 witness. -/
def wstC10 : WSTState :=
  { initialized := true, windowStates := [(7, ⟨7, "Game", WindowState.normal, true,
      ⟨0, 0, 800, 600⟩, 42, false⟩)] }

/-- Witness for c10_addwindow_rejects: re-adding the already-tracked
handle 7 is rejected and changes nothing. -/
theorem c10_addwindow_rejects_witness :
    addWindow (fun _ => true) (fun h => ⟨h, "", WindowState.normal, false,
        ⟨0, 0, 0, 0⟩, 0, false⟩) wstC10 7 = (wstC10, false) :=
  (c10_addwindow_rejects (fun _ => true)
    (fun h => ⟨h, "", WindowState.normal, false, ⟨0, 0, 0, 0⟩, 0, false⟩)
    wstC10 7 (Or.inr (Or.inr (by decide)))).1

end PoEOverlay
